import Mathlib

/-!
Verification development for the `NegativeBinomial` distribution component
(`torch/distributions/negative_binomial.py`): a shallow embedding of the
tensor broadcasting rules, the constructor with its argument checks, the
lazy `probs`/`logits` accessors, the moments, the Gamma-Poisson sampler and
the log-density, together with theorems settling the specified properties.
-/

set_option maxHeartbeats 1000000

namespace Torch

/-- A tensor is modelled as a shape (list of dimension sizes) together with a
total data function from multi-indices to scalars.  Only indices that are
valid for the shape are meaningful. -/
structure Tensor (α : Type) where
  shape : List ℕ
  data : List ℕ → α

/-- Broadcasting rule for a single pair of aligned dimensions: equal sizes
stay, a size of 1 stretches to the other size, anything else is an error. -/
def broadcastDim (a b : ℕ) : Option ℕ :=
  if a = b then some a else if a = 1 then some b else if b = 1 then some a else none

/-- Broadcast two shapes of equal rank, dimension by dimension. -/
def bcastZip : List ℕ → List ℕ → Option (List ℕ)
  | [], [] => some []
  | a :: s, b :: t =>
    match broadcastDim a b, bcastZip s t with
    | some c, some r => some (c :: r)
    | _, _ => none
  | _, _ => none

/-- Pad a shape on the left with 1-sized dimensions up to rank `n`
(trailing dimensions align in broadcasting). -/
def padTo (n : ℕ) (s : List ℕ) : List ℕ :=
  List.replicate (n - s.length) 1 ++ s

/-- Broadcast two shapes of arbitrary rank: pad the shorter one with leading
ones, then combine dimension by dimension. -/
def broadcastShape (s t : List ℕ) : Option (List ℕ) :=
  bcastZip (padTo (max s.length t.length) s) (padTo (max s.length t.length) t)

/-- Map a multi-index of a broadcast result shape back to an index of a
source shape: drop the leading extra coordinates and clamp coordinates of
1-sized source dimensions to 0. -/
def bcastIndex (src idx : List ℕ) : List ℕ :=
  (src.zip (idx.drop (idx.length - src.length))).map fun p => if p.1 = 1 then 0 else p.2

/-- A multi-index is valid for a shape when it has the same rank and every
coordinate is below the corresponding dimension size. -/
def validIdx : List ℕ → List ℕ → Prop
  | [], [] => True
  | j :: i, d :: s => j < d ∧ validIdx i s
  | _, _ => False

/-- All valid multi-indices of a shape, as a list. -/
def indices : List ℕ → List (List ℕ)
  | [] => [[]]
  | d :: s => (List.range d).flatMap fun j => (indices s).map fun i => j :: i

variable {α : Type}

/-- Elementwise application of a unary scalar function, as `torch.exp`,
`torch.lgamma`, unary minus and the scalar-broadcast `1. + value` do. -/
def ewMap (f : α → α) (x : Tensor α) : Tensor α :=
  ⟨x.shape, fun i => f (x.data i)⟩

/-- Elementwise application of a binary scalar function under the standard
broadcasting rules, as the tensor operators `*`, `+`, `-`, `/` do.  The shape
defaults to `[]` when the operand shapes are incompatible; the operations
used below are only ever applied to compatible shapes. -/
def ewBin (f : α → α → α) (x y : Tensor α) : Tensor α :=
  ⟨(broadcastShape x.shape y.shape).getD [],
   fun i => f (x.data (bcastIndex x.shape i)) (y.data (bcastIndex y.shape i))⟩

/-- Modelled from the spec: the external `broadcast_all` utility
(`torch.distributions.utils.broadcast_all`, not part of the analysed source),
which broadcasts its arguments to one common shape or fails. -/
def broadcast_all (x y : Tensor α) : Option (Tensor α × Tensor α) :=
  match broadcastShape x.shape y.shape with
  | none => none
  | some s =>
    some (⟨s, fun i => x.data (bcastIndex x.shape i)⟩,
          ⟨s, fun i => y.data (bcastIndex y.shape i)⟩)

/-- Modelled from the spec: the external numerics substrate (elementwise
`exp`, `log`, stable `sigmoid`, stable `log_sigmoid`, `lgamma`, and the
support-membership test of the `nonnegative_integer` constraint object),
consumed via this record of scalar kernels. -/
structure Numerics (α : Type) where
  exp : α → α
  log : α → α
  sigmoid : α → α
  logsigmoid : α → α
  lgamma : α → α
  isNonnegInt : α → Bool

/-- Modelled from the spec: the stable binary `probs_to_logits` transform,
`logit(p) = log(p) - log(1-p)` applied elementwise (external utility). -/
def probs_to_logits (N : Numerics α) [Field α] (p : Tensor α) : Tensor α :=
  ewMap (fun x => N.log x - N.log (1 - x)) p

/-- Modelled from the spec: the stable binary `logits_to_probs` transform,
the elementwise sigmoid (external utility). -/
def logits_to_probs (N : Numerics α) (l : Tensor α) : Tensor α :=
  ewMap N.sigmoid l

/-- Error taxonomy of the component: `configurationError` models the
`ValueError` raised for a both-or-neither `probs`/`logits` supply,
`broadcastError` the failure of `broadcast_all` on incompatible shapes, and
`validationError` the error raised for a violated declared constraint. -/
inductive DistError where
  | configurationError
  | broadcastError
  | validationError

/-- The `NegativeBinomial` instance state: the broadcast `total_count`, the
canonical stored parameter `_param` (the broadcast `probs` or `logits`),
which of the two was supplied, the recorded `batch_shape`, and the
validation flag. -/
structure NegativeBinomial (α : Type) where
  total_count : Tensor α
  _param : Tensor α
  fromProbs : Bool
  batch_shape : List ℕ
  _validate_args : Bool

/-- Modelled from the spec: the elementwise check of the declared
`total_count ≥ 0` constraint (`constraints.greater_than_eq(0)`). -/
def checkNonneg [LinearOrderedField α] (t : Tensor α) : Bool :=
  (indices t.shape).all fun i => decide (0 ≤ t.data i)

/-- Modelled from the spec: the elementwise check of the declared
`probs ∈ [0,1)` constraint (`constraints.half_open_interval(0., 1.)`). -/
def checkHalfOpenUnit [LinearOrderedField α] (p : Tensor α) : Bool :=
  (indices p.shape).all fun i => decide (0 ≤ p.data i ∧ p.data i < 1)

/-- The constructor `NegativeBinomial.__init__`: fail when both or neither
of `probs`/`logits` are given, broadcast `total_count` against the given
parameter, record the canonical parameter and `batch_shape`, and (base-class
behaviour, modelled from the spec) check the declared argument constraints
when validation is enabled. -/
def NegativeBinomial.init [LinearOrderedField α] (total_count : Tensor α)
    (probs logits : Option (Tensor α)) (validate_args : Bool) :
    Except DistError (NegativeBinomial α) :=
  if probs.isNone = logits.isNone then
    Except.error DistError.configurationError
  else
    match probs, logits with
    | some p, _ =>
      match broadcast_all total_count p with
      | none => Except.error DistError.broadcastError
      | some (tc, pb) =>
        if validate_args && !(checkNonneg tc && checkHalfOpenUnit pb) then
          Except.error DistError.validationError
        else
          Except.ok ⟨tc, pb, true, pb.shape, validate_args⟩
    | none, some l =>
      match broadcast_all total_count l with
      | none => Except.error DistError.broadcastError
      | some (tc, lb) =>
        if validate_args && !(checkNonneg tc) then
          Except.error DistError.validationError
        else
          Except.ok ⟨tc, lb, false, lb.shape, validate_args⟩
    | none, none => Except.error DistError.configurationError

/-- The lazy `logits` property: the stored parameter when constructed from
`logits`, else `probs_to_logits(probs, is_binary=True)`. -/
def NegativeBinomial.logits [Field α] (N : Numerics α) (nb : NegativeBinomial α) : Tensor α :=
  if nb.fromProbs then probs_to_logits N nb._param else nb._param

/-- The lazy `probs` property: the stored parameter when constructed from
`probs`, else `logits_to_probs(logits, is_binary=True)`. -/
def NegativeBinomial.probs [Field α] (N : Numerics α) (nb : NegativeBinomial α) : Tensor α :=
  if nb.fromProbs then nb._param else logits_to_probs N nb._param

/-- The `mean` property: `self.total_count * torch.exp(self.logits)`. -/
def NegativeBinomial.mean [Field α] (N : Numerics α) (nb : NegativeBinomial α) : Tensor α :=
  ewBin (· * ·) nb.total_count (ewMap N.exp (NegativeBinomial.logits N nb))

/-- The `variance` property: `self.mean / torch.sigmoid(-self.logits)`. -/
def NegativeBinomial.variance [Field α] (N : Numerics α) (nb : NegativeBinomial α) : Tensor α :=
  ewBin (· / ·) (NegativeBinomial.mean N nb)
    (ewMap N.sigmoid (ewMap (fun x => -x) (NegativeBinomial.logits N nb)))

/-- The `param_shape` property: `self._param.size()`. -/
def NegativeBinomial.param_shape (nb : NegativeBinomial α) : List ℕ :=
  nb._param.shape

/-- Parameters of the internal Gamma mixing distribution. -/
structure GammaDist (α : Type) where
  concentration : Tensor α
  rate : Tensor α

/-- The lazy `_gamma` property:
`Gamma(concentration=self.total_count, rate=torch.exp(-self.logits))`. -/
def NegativeBinomial._gamma [Field α] (N : Numerics α) (nb : NegativeBinomial α) : GammaDist α :=
  ⟨nb.total_count, ewMap N.exp (ewMap (fun x => -x) (NegativeBinomial.logits N nb))⟩

/-- Ambient runtime state threaded through sampling: the autograd
gradient-tracking flag, a counter of recorded gradient-history nodes, and
the random-generator state. -/
structure TorchState where
  gradEnabled : Bool
  gradHistory : ℕ
  rng : ℕ

/-- Modelled from the spec: the scoped `torch.no_grad()` region.  It saves
the gradient-tracking flag, runs the body with tracking disabled, and
restores the saved flag on every exit path, error results included. -/
def noGradScope {β : Type} (body : TorchState → Except DistError β × TorchState)
    (s : TorchState) : Except DistError β × TorchState :=
  let r := body ⟨false, s.gradHistory, s.rng⟩
  (r.1, ⟨s.gradEnabled, r.2.gradHistory, r.2.rng⟩)

/-- The external Gamma sampler contract shape: given an output sample shape,
a concentration tensor and a rate tensor, consume state and return a draw
or an error. -/
def GammaSampler (α : Type) : Type :=
  List ℕ → Tensor α → Tensor α → TorchState → Except DistError (Tensor α) × TorchState

/-- The external Poisson sampler contract shape: given a rate tensor,
consume state and return one draw per rate entry or an error. -/
def PoissonSampler (α : Type) : Type :=
  Tensor α → TorchState → Except DistError (Tensor α) × TorchState

/-- The `sample` method: inside a `no_grad` scope, draw `rate` from the
internal Gamma distribution at the requested sample shape, then return a
Poisson draw with parameter `rate`. -/
def NegativeBinomial.sample [Field α] (gammaS : GammaSampler α) (poissonS : PoissonSampler α)
    (N : Numerics α) (nb : NegativeBinomial α) (sample_shape : List ℕ) :
    TorchState → Except DistError (Tensor α) × TorchState :=
  noGradScope fun s =>
    match gammaS sample_shape (NegativeBinomial._gamma N nb).concentration
        (NegativeBinomial._gamma N nb).rate s with
    | (Except.error e, s1) => (Except.error e, s1)
    | (Except.ok rate, s1) => poissonS rate s1

/-- Modelled from the spec: the base-class `_validate_sample` check that a
value lies in the declared support (non-negative integers), elementwise. -/
def NegativeBinomial._validate_sample (N : Numerics α) (value : Tensor α) : Bool :=
  (indices value.shape).all fun i => N.isNonnegInt (value.data i)

/-- The `log_prob` method: validate the value against the support when
validation is enabled, then return
`log_unnormalized_prob - log_normalization` with
`log_unnormalized_prob = total_count * logsigmoid(-logits) + value * logsigmoid(logits)` and
`log_normalization = -lgamma(total_count + value) + lgamma(1. + value) + lgamma(total_count)`. -/
def NegativeBinomial.log_prob [Field α] (N : Numerics α) (nb : NegativeBinomial α)
    (value : Tensor α) : Except DistError (Tensor α) :=
  if nb._validate_args && !(NegativeBinomial._validate_sample N value) then
    Except.error DistError.validationError
  else
    let log_unnormalized_prob :=
      ewBin (· + ·)
        (ewBin (· * ·) nb.total_count
          (ewMap N.logsigmoid (ewMap (fun x => -x) (NegativeBinomial.logits N nb))))
        (ewBin (· * ·) value (ewMap N.logsigmoid (NegativeBinomial.logits N nb)))
    let log_normalization :=
      ewBin (· + ·)
        (ewBin (· + ·)
          (ewMap (fun x => -x) (ewMap N.lgamma (ewBin (· + ·) nb.total_count value)))
          (ewMap N.lgamma (ewMap (fun x => 1 + x) value)))
        (ewMap N.lgamma nb.total_count)
    Except.ok (ewBin (· - ·) log_unnormalized_prob log_normalization)

/-- Shape invariant established by the constructor: the broadcast
`total_count` and the stored parameter both have shape `batch_shape`. -/
def NegativeBinomial.wellFormed (nb : NegativeBinomial α) : Prop :=
  nb.total_count.shape = nb.batch_shape ∧ nb._param.shape = nb.batch_shape

theorem broadcastDim_self (a : ℕ) : broadcastDim a a = some a := by
  simp [broadcastDim]

theorem broadcastDim_comm (a b : ℕ) : broadcastDim a b = broadcastDim b a := by
  unfold broadcastDim
  by_cases hab : a = b
  · subst hab; simp
  · have hba : ¬ b = a := fun h => hab h.symm
    by_cases ha : a = 1
    · subst ha
      by_cases hb : b = 1
      · exact absurd hb.symm hab
      · simp [hab, hba, hb]
    · by_cases hb : b = 1
      · subst hb; simp [hab, hba, ha]
      · simp [hab, hba, ha, hb]

theorem bcastZip_self : ∀ s : List ℕ, bcastZip s s = some s
  | [] => rfl
  | a :: s => by
    simp [bcastZip, broadcastDim_self, bcastZip_self s]

theorem bcastZip_comm : ∀ s t : List ℕ, bcastZip s t = bcastZip t s
  | [], [] => rfl
  | [], _ :: _ => rfl
  | _ :: _, [] => rfl
  | a :: s, b :: t => by
    simp only [bcastZip, broadcastDim_comm a b, bcastZip_comm s t]

theorem bcastZip_length : ∀ {s t c : List ℕ}, bcastZip s t = some c →
    s.length = t.length ∧ c.length = s.length
  | [], [], _, h => by
    simp [bcastZip] at h
    simp [← h]
  | [], _ :: _, _, h => by simp [bcastZip] at h
  | _ :: _, [], _, h => by simp [bcastZip] at h
  | a :: s, b :: t, c, h => by
    simp only [bcastZip] at h
    cases hd : broadcastDim a b with
    | none => rw [hd] at h; simp at h
    | some d =>
      rw [hd] at h
      cases hr : bcastZip s t with
      | none => rw [hr] at h; simp at h
      | some r =>
        rw [hr] at h
        simp at h
        obtain ⟨h1, h2⟩ := bcastZip_length hr
        simp [← h, h1, h2]

theorem bcastZip_absorb : ∀ {s t c : List ℕ}, bcastZip s t = some c →
    bcastZip t c = some c
  | [], [], c, h => by
    simp only [bcastZip] at h
    injection h with h
    subst h
    rfl
  | [], _ :: _, _, h => by simp [bcastZip] at h
  | _ :: _, [], _, h => by simp [bcastZip] at h
  | a :: s, b :: t, c, h => by
    simp only [bcastZip] at h
    cases hd : broadcastDim a b with
    | none => rw [hd] at h; simp at h
    | some d =>
      rw [hd] at h
      cases hr : bcastZip s t with
      | none => rw [hr] at h; simp at h
      | some r =>
        rw [hr] at h
        simp at h
        have ih := bcastZip_absorb hr
        have hbd : broadcastDim b d = some d := by
          unfold broadcastDim at hd ⊢
          by_cases hab : a = b
          · subst hab
            simp at hd
            subst hd
            simp
          · simp [hab] at hd
            by_cases ha1 : a = 1
            · simp [ha1] at hd
              subst hd
              simp
            · simp [ha1] at hd
              obtain ⟨hb1, had⟩ := hd
              subst hb1
              subst had
              simp [hab, fun h : (1 : ℕ) = a => hab h.symm]
        rw [← h]
        simp [bcastZip, hbd, ih]

theorem padTo_of_length_le {n : ℕ} {s : List ℕ} (h : n ≤ s.length) : padTo n s = s := by
  simp [padTo, Nat.sub_eq_zero_of_le h]

theorem padTo_length {n : ℕ} {s : List ℕ} (h : s.length ≤ n) :
    (padTo n s).length = n := by
  simp [padTo]
  omega

theorem broadcastShape_self (s : List ℕ) : broadcastShape s s = some s := by
  simp [broadcastShape, padTo_of_length_le (Nat.le_refl _), bcastZip_self]

theorem broadcastShape_comm (s t : List ℕ) : broadcastShape s t = broadcastShape t s := by
  simp [broadcastShape, Nat.max_comm s.length t.length, bcastZip_comm]

theorem broadcastShape_length {s t c : List ℕ} (h : broadcastShape s t = some c) :
    c.length = max s.length t.length := by
  unfold broadcastShape at h
  have h2 := (bcastZip_length h).2
  rw [h2, padTo_length (Nat.le_max_left _ _)]

theorem broadcastShape_absorb {s t c : List ℕ} (h : broadcastShape s t = some c) :
    broadcastShape t c = some c := by
  have hc : c.length = max s.length t.length := broadcastShape_length h
  have htc : t.length ≤ c.length := hc ▸ Nat.le_max_right _ _
  unfold broadcastShape at h ⊢
  rw [Nat.max_eq_right htc, padTo_of_length_le (Nat.le_refl _), hc]
  exact bcastZip_absorb h

theorem broadcastShape_absorb' {s t c : List ℕ} (h : broadcastShape s t = some c) :
    broadcastShape s c = some c :=
  broadcastShape_absorb (broadcastShape_comm t s ▸ h)

theorem validIdx_length : ∀ {i s : List ℕ}, validIdx i s → i.length = s.length
  | [], [], _ => rfl
  | [], _ :: _, h => absurd h (by simp [validIdx])
  | _ :: _, [], h => absurd h (by simp [validIdx])
  | _ :: i, _ :: s, h => by
    simp only [validIdx] at h
    simp [validIdx_length h.2]

theorem validIdx_nil : ∀ {i : List ℕ}, validIdx i [] → i = []
  | [], _ => rfl
  | _ :: _, h => absurd h (by simp [validIdx])

theorem map_zip_of_validIdx : ∀ {s i : List ℕ}, validIdx i s →
    (s.zip i).map (fun p => if p.1 = 1 then 0 else p.2) = i
  | [], i, h => by rw [validIdx_nil h]; rfl
  | _ :: _, [], h => absurd h (by simp [validIdx])
  | d :: s, j :: i, h => by
    simp only [validIdx] at h
    simp only [List.zip_cons_cons, List.map_cons, map_zip_of_validIdx h.2]
    by_cases hd : d = 1
    · subst hd
      have : j = 0 := Nat.lt_one_iff.mp h.1
      simp [this]
    · simp [hd]

theorem bcastIndex_self {s i : List ℕ} (h : validIdx i s) : bcastIndex s i = i := by
  unfold bcastIndex
  rw [validIdx_length h, Nat.sub_self, List.drop_zero]
  exact map_zip_of_validIdx h

theorem validIdx_map_zip : ∀ {a b c i : List ℕ}, bcastZip a b = some c → validIdx i c →
    validIdx ((a.zip i).map fun p => if p.1 = 1 then 0 else p.2) a
  | [], [], c, i, h, hi => by
    simp only [bcastZip] at h
    injection h with h
    subst h
    rw [validIdx_nil hi]
    trivial
  | [], _ :: _, _, _, h, _ => by simp [bcastZip] at h
  | _ :: _, [], _, _, h, _ => by simp [bcastZip] at h
  | a :: s, b :: t, c, i, h, hi => by
    simp only [bcastZip] at h
    cases hd : broadcastDim a b with
    | none => rw [hd] at h; simp at h
    | some d =>
      rw [hd] at h
      cases hr : bcastZip s t with
      | none => rw [hr] at h; simp at h
      | some r =>
        rw [hr] at h
        simp at h
        subst h
        match i, hi with
        | [], hi => exact absurd hi (by simp [validIdx])
        | j :: i, hi =>
          simp only [validIdx] at hi
          simp only [List.zip_cons_cons, List.map_cons, validIdx]
          refine ⟨?_, validIdx_map_zip hr hi.2⟩
          by_cases ha : a = 1
          · simp [ha]
          · simp only [ha, if_false]
            unfold broadcastDim at hd
            by_cases hab : a = b
            · simp [hab] at hd
              omega
            · simp [hab, ha] at hd
              omega

theorem validIdx_append_right : ∀ {u x v y : List ℕ}, x.length = u.length →
    validIdx (x ++ y) (u ++ v) → validIdx y v
  | [], [], _, _, _, h => h
  | [], _ :: _, _, _, hl, _ => by simp at hl
  | _ :: _, [], _, _, hl, _ => by simp at hl
  | _ :: u, _ :: x, v, y, hl, h => by
    simp only [List.cons_append, validIdx] at h
    exact validIdx_append_right (by simpa using hl) h.2

theorem validIdx_bcastIndex {a b c i : List ℕ} (h : broadcastShape a b = some c)
    (hi : validIdx i c) : validIdx (bcastIndex a i) a := by
  unfold broadcastShape at h
  set m := max a.length b.length with hm
  have hal : a.length ≤ m := Nat.le_max_left _ _
  have hcl : c.length = m := by
    rw [(bcastZip_length h).2, padTo_length hal]
  have hil : i.length = m := (validIdx_length hi).trans hcl
  have hcore := validIdx_map_zip h hi
  have hsplit : padTo m a = List.replicate (m - a.length) 1 ++ a := rfl
  have hi2 : i = i.take (m - a.length) ++ i.drop (m - a.length) :=
    (List.take_append_drop _ _).symm
  have hzip : (padTo m a).zip i =
      (List.replicate (m - a.length) 1).zip (i.take (m - a.length)) ++
        a.zip (i.drop (m - a.length)) := by
    rw [hsplit]
    conv =>
      lhs
      rw [hi2]
    refine List.zip_append ?_
    rw [List.length_replicate, List.length_take, hil]
    omega
  rw [hzip, List.map_append] at hcore
  have hlen : (((List.replicate (m - a.length) 1).zip
      (i.take (m - a.length))).map (fun p : ℕ × ℕ => if p.1 = 1 then 0 else p.2)).length
        = (List.replicate (m - a.length) 1).length := by
    rw [List.length_map, List.length_zip, List.length_replicate, List.length_take, hil]
    omega
  have := validIdx_append_right (by simpa using hlen) (hsplit ▸ hcore)
  unfold bcastIndex
  rw [hil]
  exact this

theorem mem_indices : ∀ {s i : List ℕ}, i ∈ indices s ↔ validIdx i s
  | [], i => by
    cases i with
    | nil => simp [indices, validIdx]
    | cons j i => simp [indices, validIdx]
  | d :: s, i => by
    cases i with
    | nil =>
      simp only [indices, List.mem_flatMap, List.mem_map, List.mem_range]
      constructor
      · rintro ⟨j, _, i', _, h⟩
        exact absurd h (by simp)
      · intro h
        exact absurd h (by simp [validIdx])
    | cons j i =>
      simp only [indices, List.mem_flatMap, List.mem_map, List.mem_range, validIdx]
      constructor
      · rintro ⟨j', hj', i', hi', h⟩
        injection h with h1 h2
        subst h1
        subst h2
        exact ⟨hj', mem_indices.mp hi'⟩
      · rintro ⟨hj, hi⟩
        exact ⟨j, hj, i, mem_indices.mpr hi, rfl⟩

theorem all_indices_iff {s : List ℕ} {f : List ℕ → Bool} :
    (indices s).all f = true ↔ ∀ i, validIdx i s → f i = true := by
  simp only [List.all_eq_true]
  constructor
  · intro h i hi
    exact h i (mem_indices.mpr hi)
  · intro h i hi
    exact h i (mem_indices.mp hi)

theorem broadcast_all_eq {x y x' y' : Tensor α}
    (h : broadcast_all x y = some (x', y')) :
    broadcastShape x.shape y.shape = some x'.shape ∧ x'.shape = y'.shape ∧
      (∀ i, x'.data i = x.data (bcastIndex x.shape i)) ∧
      (∀ i, y'.data i = y.data (bcastIndex y.shape i)) := by
  unfold broadcast_all at h
  cases hb : broadcastShape x.shape y.shape with
  | none => rw [hb] at h; simp at h
  | some s =>
    rw [hb] at h
    simp only [Option.some.injEq, Prod.mk.injEq] at h
    obtain ⟨h1, h2⟩ := h
    subst h1
    subst h2
    exact ⟨rfl, rfl, fun i => rfl, fun i => rfl⟩

theorem init_ok_probs [LinearOrderedField α] {tc p : Tensor α} {v : Bool}
    {nb : NegativeBinomial α}
    (h : NegativeBinomial.init tc (some p) none v = Except.ok nb) :
    broadcast_all tc p = some (nb.total_count, nb._param) ∧ nb.fromProbs = true ∧
      nb.batch_shape = nb._param.shape ∧ nb._validate_args = v := by
  unfold NegativeBinomial.init at h
  rw [if_neg (by simp)] at h
  have h2 : (match broadcast_all tc p with
    | none => Except.error DistError.broadcastError
    | some (tcb, pb) =>
      if (v && !(checkNonneg tcb && checkHalfOpenUnit pb)) = true then
        Except.error DistError.validationError
      else
        Except.ok ⟨tcb, pb, true, pb.shape, v⟩) = Except.ok nb := h
  cases hb : broadcast_all tc p with
  | none =>
    rw [hb] at h2
    exact absurd h2 (by simp)
  | some pair =>
    obtain ⟨tc', pb⟩ := pair
    rw [hb] at h2
    have h3 : (if (v && !(checkNonneg tc' && checkHalfOpenUnit pb)) = true then
        Except.error DistError.validationError
      else
        Except.ok (⟨tc', pb, true, pb.shape, v⟩ : NegativeBinomial α)) = Except.ok nb := h2
    by_cases hv : (v && !(checkNonneg tc' && checkHalfOpenUnit pb)) = true
    · rw [if_pos hv] at h3
      exact absurd h3 (by simp)
    · rw [if_neg hv] at h3
      injection h3 with h3
      subst h3
      exact ⟨rfl, rfl, rfl, rfl⟩

theorem init_ok_logits [LinearOrderedField α] {tc l : Tensor α} {v : Bool}
    {nb : NegativeBinomial α}
    (h : NegativeBinomial.init tc none (some l) v = Except.ok nb) :
    broadcast_all tc l = some (nb.total_count, nb._param) ∧ nb.fromProbs = false ∧
      nb.batch_shape = nb._param.shape ∧ nb._validate_args = v := by
  unfold NegativeBinomial.init at h
  rw [if_neg (by simp)] at h
  have h2 : (match broadcast_all tc l with
    | none => Except.error DistError.broadcastError
    | some (tcb, lb) =>
      if (v && !(checkNonneg tcb)) = true then
        Except.error DistError.validationError
      else
        Except.ok ⟨tcb, lb, false, lb.shape, v⟩) = Except.ok nb := h
  cases hb : broadcast_all tc l with
  | none =>
    rw [hb] at h2
    exact absurd h2 (by simp)
  | some pair =>
    obtain ⟨tc', lb⟩ := pair
    rw [hb] at h2
    have h3 : (if (v && !(checkNonneg tc')) = true then
        Except.error DistError.validationError
      else
        Except.ok (⟨tc', lb, false, lb.shape, v⟩ : NegativeBinomial α)) = Except.ok nb := h2
    by_cases hv : (v && !(checkNonneg tc')) = true
    · rw [if_pos hv] at h3
      exact absurd h3 (by simp)
    · rw [if_neg hv] at h3
      injection h3 with h3
      subst h3
      exact ⟨rfl, rfl, rfl, rfl⟩

theorem init_ok_wellFormed [LinearOrderedField α] {tc : Tensor α}
    {po lo : Option (Tensor α)} {v : Bool} {nb : NegativeBinomial α}
    (h : NegativeBinomial.init tc po lo v = Except.ok nb) :
    NegativeBinomial.wellFormed nb ∧ nb._param.shape = nb.batch_shape := by
  cases po with
  | some p =>
    cases lo with
    | some l =>
      unfold NegativeBinomial.init at h
      rw [if_pos (by simp)] at h
      exact absurd h (by simp)
    | none =>
      obtain ⟨hb, _, hbs, _⟩ := init_ok_probs h
      obtain ⟨h1, h2, _, _⟩ := broadcast_all_eq hb
      exact ⟨⟨h2.symm ▸ hbs ▸ rfl, hbs.symm⟩, hbs.symm⟩
  | none =>
    cases lo with
    | some l =>
      obtain ⟨hb, _, hbs, _⟩ := init_ok_logits h
      obtain ⟨h1, h2, _, _⟩ := broadcast_all_eq hb
      exact ⟨⟨h2.symm ▸ hbs ▸ rfl, hbs.symm⟩, hbs.symm⟩
    | none =>
      unfold NegativeBinomial.init at h
      rw [if_pos (by simp)] at h
      exact absurd h (by simp)

theorem ewMap_shape (f : α → α) (x : Tensor α) : (ewMap f x).shape = x.shape := rfl

theorem ewMap_data (f : α → α) (x : Tensor α) (i : List ℕ) :
    (ewMap f x).data i = f (x.data i) := rfl

theorem ewBin_shape {x y : Tensor α} {c : List ℕ} (f : α → α → α)
    (h : broadcastShape x.shape y.shape = some c) : (ewBin f x y).shape = c := by
  unfold ewBin
  rw [h]
  rfl

theorem ewBin_data (f : α → α → α) (x y : Tensor α) (i : List ℕ) :
    (ewBin f x y).data i =
      f (x.data (bcastIndex x.shape i)) (y.data (bcastIndex y.shape i)) := rfl

theorem logits_shape [Field α] {N : Numerics α} {nb : NegativeBinomial α}
    (h : nb._param.shape = nb.batch_shape) :
    (NegativeBinomial.logits N nb).shape = nb.batch_shape := by
  unfold NegativeBinomial.logits probs_to_logits
  cases hfp : nb.fromProbs <;> simp [hfp, ewMap, h]

theorem sample_eq [Field α] (N : Numerics α) (gammaS : GammaSampler α)
    (poissonS : PoissonSampler α) (nb : NegativeBinomial α)
    (sample_shape : List ℕ) (s : TorchState) :
    NegativeBinomial.sample gammaS poissonS N nb sample_shape s =
      match gammaS sample_shape (NegativeBinomial._gamma N nb).concentration
          (NegativeBinomial._gamma N nb).rate ⟨false, s.gradHistory, s.rng⟩ with
      | (Except.error e, s1) => (Except.error e, ⟨s.gradEnabled, s1.gradHistory, s1.rng⟩)
      | (Except.ok rate, s1) =>
        ((poissonS rate s1).1,
         ⟨s.gradEnabled, (poissonS rate s1).2.gradHistory, (poissonS rate s1).2.rng⟩) := by
  cases hgr : gammaS sample_shape (NegativeBinomial._gamma N nb).concentration
      (NegativeBinomial._gamma N nb).rate ⟨false, s.gradHistory, s.rng⟩ with
  | mk e1 s1 =>
    cases e1 with
    | error e =>
      unfold NegativeBinomial.sample noGradScope
      simp only [hgr]
    | ok rate =>
      unfold NegativeBinomial.sample noGradScope
      simp only [hgr]

theorem sample_ok_decomp [Field α] {N : Numerics α} {gammaS : GammaSampler α}
    {poissonS : PoissonSampler α} {nb : NegativeBinomial α}
    {sample_shape : List ℕ} {s s' : TorchState} {t : Tensor α}
    (h : NegativeBinomial.sample gammaS poissonS N nb sample_shape s = (Except.ok t, s')) :
    ∃ rate s1 s2,
      gammaS sample_shape nb.total_count
        (ewMap N.exp (ewMap (fun x => -x) (NegativeBinomial.logits N nb)))
        ⟨false, s.gradHistory, s.rng⟩ = (Except.ok rate, s1) ∧
      poissonS rate s1 = (Except.ok t, s2) ∧
      s' = ⟨s.gradEnabled, s2.gradHistory, s2.rng⟩ := by
  rw [sample_eq] at h
  revert h
  cases hgr : gammaS sample_shape (NegativeBinomial._gamma N nb).concentration
      (NegativeBinomial._gamma N nb).rate ⟨false, s.gradHistory, s.rng⟩ with
  | mk e1 s1 =>
    cases e1 with
    | error e =>
      intro h
      exact absurd h (by simp)
    | ok rate =>
      intro h
      have h2 : (((poissonS rate s1).1,
          (⟨s.gradEnabled, (poissonS rate s1).2.gradHistory, (poissonS rate s1).2.rng⟩ :
            TorchState)) : Except DistError (Tensor α) × TorchState) = (Except.ok t, s') := h
      cases hpr : poissonS rate s1 with
      | mk e2 s2 =>
        rw [hpr] at h2
        have h3 : ((e2, (⟨s.gradEnabled, s2.gradHistory, s2.rng⟩ : TorchState)) :
            Except DistError (Tensor α) × TorchState) = (Except.ok t, s') := h2
        cases e2 with
        | error e =>
          exact absurd h3 (by simp)
        | ok t2 =>
          rw [Prod.mk.injEq] at h3
          obtain ⟨ht, hs⟩ := h3
          injection ht with ht
          subst ht
          exact ⟨rate, s1, s2, hgr, hpr, hs.symm⟩

/-- C6: the whole two-stage draw of `sample` executes inside a scoped region
with gradient tracking disabled, and the gradient-tracking state is restored
on all exit paths, error exits included; as long as the external samplers
record no gradient history while tracking is disabled, `sample` records no
gradient history. -/
theorem sample_no_grad [Field α] (N : Numerics α) (gammaS : GammaSampler α)
    (poissonS : PoissonSampler α) (nb : NegativeBinomial α) (sample_shape : List ℕ)
    (hg : ∀ sh c r s, s.gradEnabled = false →
      (gammaS sh c r s).2.gradEnabled = false ∧ (gammaS sh c r s).2.gradHistory = s.gradHistory)
    (hp : ∀ r s, s.gradEnabled = false →
      (poissonS r s).2.gradEnabled = false ∧ (poissonS r s).2.gradHistory = s.gradHistory)
    (s : TorchState) :
    (NegativeBinomial.sample gammaS poissonS N nb sample_shape s).2.gradEnabled =
      s.gradEnabled ∧
    (NegativeBinomial.sample gammaS poissonS N nb sample_shape s).2.gradHistory =
      s.gradHistory := by
  rw [sample_eq]
  have hg1 := hg sample_shape (NegativeBinomial._gamma N nb).concentration
    (NegativeBinomial._gamma N nb).rate ⟨false, s.gradHistory, s.rng⟩ rfl
  revert hg1
  cases hgr : gammaS sample_shape (NegativeBinomial._gamma N nb).concentration
      (NegativeBinomial._gamma N nb).rate ⟨false, s.gradHistory, s.rng⟩ with
  | mk e1 s1 =>
    intro hg1
    cases e1 with
    | error e => exact ⟨rfl, hg1.2⟩
    | ok rate =>
      have hp1 := hp rate s1 hg1.1
      exact ⟨rfl, hp1.2.trans hg1.2⟩

theorem sample_no_grad_witness :
    ((NegativeBinomial.sample (fun sh c r s => (Except.ok ⟨sh ++ c.shape, fun _ => (1 : ℚ)⟩, s))
        (fun r s => (Except.ok ⟨r.shape, fun _ => (0 : ℚ)⟩, s))
        (⟨id, id, id, id, id, fun _ => true⟩ : Numerics ℚ)
        (⟨⟨[1], fun _ => 1⟩, ⟨[1], fun _ => 1⟩, false, [1], false⟩ : NegativeBinomial ℚ)
        [2] ⟨true, 5, 7⟩).2.gradEnabled = (⟨true, 5, 7⟩ : TorchState).gradEnabled) ∧
    ((NegativeBinomial.sample (fun sh c r s => (Except.ok ⟨sh ++ c.shape, fun _ => (1 : ℚ)⟩, s))
        (fun r s => (Except.ok ⟨r.shape, fun _ => (0 : ℚ)⟩, s))
        (⟨id, id, id, id, id, fun _ => true⟩ : Numerics ℚ)
        (⟨⟨[1], fun _ => 1⟩, ⟨[1], fun _ => 1⟩, false, [1], false⟩ : NegativeBinomial ℚ)
        [2] ⟨true, 5, 7⟩).2.gradHistory = (⟨true, 5, 7⟩ : TorchState).gradHistory) :=
  sample_no_grad (⟨id, id, id, id, id, fun _ => true⟩ : Numerics ℚ)
    (fun sh c r s => (Except.ok ⟨sh ++ c.shape, fun _ => (1 : ℚ)⟩, s))
    (fun r s => (Except.ok ⟨r.shape, fun _ => (0 : ℚ)⟩, s))
    (⟨⟨[1], fun _ => 1⟩, ⟨[1], fun _ => 1⟩, false, [1], false⟩ : NegativeBinomial ℚ)
    [2] (fun sh c r s h => ⟨h, rfl⟩) (fun r s h => ⟨h, rfl⟩) ⟨true, 5, 7⟩

/-- C2: a successful `sample` consists of a draw of `rate` from the internal
Gamma distribution `Gamma(concentration = total_count, rate = exp(-logits))`
at the requested output shape, followed by a returned Poisson draw with
parameter `rate`; under the external sampler contracts the output is a
tensor of non-negative integer-valued scalars whose shape is the requested
sample shape prepended to `batch_shape`. -/
theorem sample_gamma_poisson [Field α] (N : Numerics α) (gammaS : GammaSampler α)
    (poissonS : PoissonSampler α) (nb : NegativeBinomial α) (sample_shape : List ℕ)
    (hg : ∀ sh c r s t s', gammaS sh c r s = (Except.ok t, s') → t.shape = sh ++ c.shape)
    (hp : ∀ r s t s', poissonS r s = (Except.ok t, s') →
      t.shape = r.shape ∧ ∀ i, ∃ n : ℕ, t.data i = (n : α))
    (hwf : nb.total_count.shape = nb.batch_shape)
    (s s' : TorchState) (t : Tensor α)
    (h : NegativeBinomial.sample gammaS poissonS N nb sample_shape s = (Except.ok t, s')) :
    t.shape = sample_shape ++ nb.batch_shape ∧
    (∀ i, ∃ n : ℕ, t.data i = (n : α)) ∧
    ∃ rate s1 s2,
      gammaS sample_shape nb.total_count
        (ewMap N.exp (ewMap (fun x => -x) (NegativeBinomial.logits N nb)))
        ⟨false, s.gradHistory, s.rng⟩ = (Except.ok rate, s1) ∧
      poissonS rate s1 = (Except.ok t, s2) ∧
      s' = ⟨s.gradEnabled, s2.gradHistory, s2.rng⟩ := by
  obtain ⟨rate, s1, s2, hgr, hpr, hs⟩ := sample_ok_decomp h
  have hrs : rate.shape = sample_shape ++ nb.total_count.shape := hg _ _ _ _ _ _ hgr
  obtain ⟨hts, hint⟩ := hp _ _ _ _ hpr
  refine ⟨?_, hint, rate, s1, s2, hgr, hpr, hs⟩
  rw [hts, hrs, hwf]

theorem sample_gamma_poisson_witness :
    ((⟨[2, 1], fun _ => (0 : ℚ)⟩ : Tensor ℚ).shape =
      [2] ++ (⟨⟨[1], fun _ => 1⟩, ⟨[1], fun _ => 1⟩, false, [1], false⟩ :
        NegativeBinomial ℚ).batch_shape) ∧
    (∀ i, ∃ n : ℕ, (⟨[2, 1], fun _ => (0 : ℚ)⟩ : Tensor ℚ).data i = (n : ℚ)) :=
  have happ := sample_gamma_poisson (⟨id, id, id, id, id, fun _ => true⟩ : Numerics ℚ)
    (fun sh c r s => (Except.ok ⟨sh ++ c.shape, fun _ => (1 : ℚ)⟩, s))
    (fun r s => (Except.ok ⟨r.shape, fun _ => (0 : ℚ)⟩, s))
    (⟨⟨[1], fun _ => 1⟩, ⟨[1], fun _ => 1⟩, false, [1], false⟩ : NegativeBinomial ℚ)
    [2]
    (fun sh c r s t s' h => by
      rw [Prod.mk.injEq] at h
      obtain ⟨h1, _⟩ := h
      injection h1 with h1
      rw [← h1])
    (fun r s t s' h => by
      rw [Prod.mk.injEq] at h
      obtain ⟨h1, _⟩ := h
      injection h1 with h1
      rw [← h1]
      exact ⟨rfl, fun i => ⟨0, by simp⟩⟩)
    rfl ⟨true, 5, 7⟩ ⟨true, 5, 7⟩ ⟨[2, 1], fun _ => (0 : ℚ)⟩ rfl
  ⟨happ.1, happ.2.1⟩

/-- C8: constructing with `total_count` of shape `(3,)` and `probs` of shape
`(1,)` yields `batch_shape = (3,)` (the elementwise-broadcast common shape),
and on that instance sampling with sample shape `(2,)` yields an output of
shape `(2, 3)` under the external sampler shape contracts. -/
theorem batch_shape_and_sample_shape_example [LinearOrderedField α]
    {tc p : Tensor α} (htc : tc.shape = [3]) (hps : p.shape = [1])
    {v : Bool} {nb : NegativeBinomial α}
    (h : NegativeBinomial.init tc (some p) none v = Except.ok nb) :
    nb.batch_shape = [3] ∧
    ∀ (N : Numerics α) (gammaS : GammaSampler α) (poissonS : PoissonSampler α),
      (∀ sh c r s t s', gammaS sh c r s = (Except.ok t, s') → t.shape = sh ++ c.shape) →
      (∀ r s t s', poissonS r s = (Except.ok t, s') → t.shape = r.shape) →
      ∀ s s' t, NegativeBinomial.sample gammaS poissonS N nb [2] s = (Except.ok t, s') →
        t.shape = [2, 3] := by
  obtain ⟨hb, _, hbs, _⟩ := init_ok_probs h
  obtain ⟨h1, h2, _, _⟩ := broadcast_all_eq hb
  rw [htc, hps] at h1
  have h13 : broadcastShape [3] [1] = some [3] := by decide
  have htcs : nb.total_count.shape = [3] := by
    have := h13.symm.trans h1
    injection this with h3
    exact h3.symm
  constructor
  · rw [hbs, ← h2, htcs]
  · intro N gammaS poissonS hg hp s s' t hsamp
    obtain ⟨rate, s1, s2, hgr, hpr, _⟩ := sample_ok_decomp hsamp
    have hrs : rate.shape = [2] ++ nb.total_count.shape := hg _ _ _ _ _ _ hgr
    have hts : t.shape = rate.shape := hp _ _ _ _ hpr
    rw [hts, hrs, htcs]
    rfl

theorem batch_shape_and_sample_shape_example_witness :
    ((⟨⟨[3], fun _ => (2 : ℚ)⟩, ⟨[3], fun _ => (0 : ℚ)⟩, true, [3], false⟩ :
      NegativeBinomial ℚ).batch_shape = [3]) ∧
    ((⟨[2, 3], fun _ => (0 : ℚ)⟩ : Tensor ℚ).shape = [2, 3]) :=
  have happ := batch_shape_and_sample_shape_example (α := ℚ) rfl rfl
    (show NegativeBinomial.init (⟨[3], fun _ => (2 : ℚ)⟩ : Tensor ℚ)
        (some ⟨[1], fun _ => (0 : ℚ)⟩) none false =
      Except.ok ⟨⟨[3], fun _ => (2 : ℚ)⟩, ⟨[3], fun _ => (0 : ℚ)⟩, true, [3], false⟩ from rfl)
  ⟨happ.1,
    happ.2 (⟨id, id, id, id, id, fun _ => true⟩ : Numerics ℚ)
      (fun sh c r s => (Except.ok ⟨sh ++ c.shape, fun _ => (1 : ℚ)⟩, s))
      (fun r s => (Except.ok ⟨r.shape, fun _ => (0 : ℚ)⟩, s))
      (fun sh c r s t s' hh => by
        rw [Prod.mk.injEq] at hh
        obtain ⟨h1, _⟩ := hh
        injection h1 with h1
        rw [← h1])
      (fun r s t s' hh => by
        rw [Prod.mk.injEq] at hh
        obtain ⟨h1, _⟩ := hh
        injection h1 with h1
        rw [← h1])
      ⟨true, 5, 7⟩ ⟨true, 5, 7⟩ ⟨[2, 3], fun _ => (0 : ℚ)⟩ rfl⟩

theorem checkNonneg_iff [LinearOrderedField α] {t : Tensor α} :
    checkNonneg t = true ↔ ∀ i, validIdx i t.shape → 0 ≤ t.data i := by
  unfold checkNonneg
  rw [all_indices_iff]
  constructor
  · intro h i hi
    exact of_decide_eq_true (h i hi)
  · intro h i hi
    exact decide_eq_true (h i hi)

theorem checkHalfOpenUnit_iff [LinearOrderedField α] {p : Tensor α} :
    checkHalfOpenUnit p = true ↔ ∀ i, validIdx i p.shape → 0 ≤ p.data i ∧ p.data i < 1 := by
  unfold checkHalfOpenUnit
  rw [all_indices_iff]
  constructor
  · intro h i hi
    exact of_decide_eq_true (h i hi)
  · intro h i hi
    exact decide_eq_true (h i hi)

theorem validate_sample_iff {N : Numerics α} {value : Tensor α} :
    NegativeBinomial._validate_sample N value = true ↔
      ∀ i, validIdx i value.shape → N.isNonnegInt (value.data i) = true := by
  unfold NegativeBinomial._validate_sample
  exact all_indices_iff

theorem init_probs_eq [LinearOrderedField α] (tc p : Tensor α) (v : Bool) :
    NegativeBinomial.init tc (some p) none v =
      match broadcast_all tc p with
      | none => Except.error DistError.broadcastError
      | some (tcb, pb) =>
        if (v && !(checkNonneg tcb && checkHalfOpenUnit pb)) = true then
          Except.error DistError.validationError
        else
          Except.ok ⟨tcb, pb, true, pb.shape, v⟩ := by
  unfold NegativeBinomial.init
  rw [if_neg (by simp)]

theorem init_probs_eq2 [LinearOrderedField α] {tc p tc' pb : Tensor α} {v : Bool}
    (hb : broadcast_all tc p = some (tc', pb)) :
    NegativeBinomial.init tc (some p) none v =
      if (v && !(checkNonneg tc' && checkHalfOpenUnit pb)) = true then
        Except.error DistError.validationError
      else
        Except.ok ⟨tc', pb, true, pb.shape, v⟩ := by
  rw [init_probs_eq, hb]

theorem init_logits_eq [LinearOrderedField α] (tc l : Tensor α) (v : Bool) :
    NegativeBinomial.init tc none (some l) v =
      match broadcast_all tc l with
      | none => Except.error DistError.broadcastError
      | some (tcb, lb) =>
        if (v && !(checkNonneg tcb)) = true then
          Except.error DistError.validationError
        else
          Except.ok ⟨tcb, lb, false, lb.shape, v⟩ := by
  unfold NegativeBinomial.init
  rw [if_neg (by simp)]

theorem init_logits_eq2 [LinearOrderedField α] {tc l tc' lb : Tensor α} {v : Bool}
    (hb : broadcast_all tc l = some (tc', lb)) :
    NegativeBinomial.init tc none (some l) v =
      if (v && !(checkNonneg tc')) = true then
        Except.error DistError.validationError
      else
        Except.ok ⟨tc', lb, false, lb.shape, v⟩ := by
  rw [init_logits_eq, hb]

/-- C5: a `validationError` is raised exactly when validation is enabled and
a declared constraint is violated: `total_count ≥ 0` and `probs ∈ [0,1)` at
construction, and non-negative-integer support membership of the value
passed to `log_prob`; with validation disabled no such error is raised, e.g.
constructing with `total_count = -1` succeeds. -/
theorem validationError_iff [LinearOrderedField α] :
    (∀ (tc p : Tensor α) (v : Bool) (tc' pb : Tensor α),
      broadcast_all tc p = some (tc', pb) →
      (NegativeBinomial.init tc (some p) none v = Except.error DistError.validationError ↔
        v = true ∧ ¬ ((∀ i, validIdx i tc'.shape → 0 ≤ tc'.data i) ∧
          (∀ i, validIdx i pb.shape → 0 ≤ pb.data i ∧ pb.data i < 1)))) ∧
    (∀ (tc l : Tensor α) (v : Bool) (tc' lb : Tensor α),
      broadcast_all tc l = some (tc', lb) →
      (NegativeBinomial.init tc none (some l) v = Except.error DistError.validationError ↔
        v = true ∧ ¬ (∀ i, validIdx i tc'.shape → 0 ≤ tc'.data i))) ∧
    (∀ (N : Numerics α) (nb : NegativeBinomial α) (value : Tensor α),
      NegativeBinomial.log_prob N nb value = Except.error DistError.validationError ↔
        nb._validate_args = true ∧
          ¬ (∀ i, validIdx i value.shape → N.isNonnegInt (value.data i) = true)) ∧
    (∃ nb : NegativeBinomial α,
      NegativeBinomial.init (⟨[], fun _ => (-1 : α)⟩ : Tensor α)
        (some ⟨[], fun _ => (0 : α)⟩) none false = Except.ok nb) ∧
    NegativeBinomial.init (⟨[], fun _ => (-1 : α)⟩ : Tensor α)
      (some ⟨[], fun _ => (0 : α)⟩) none true = Except.error DistError.validationError := by
  refine ⟨?_, ?_, ?_, ?_, ?_⟩
  · intro tc p v tc' pb hb
    rw [init_probs_eq2 hb]
    constructor
    · intro h
      by_cases hv : (v && !(checkNonneg tc' && checkHalfOpenUnit pb)) = true
      · rw [Bool.and_eq_true, Bool.not_eq_true'] at hv
        refine ⟨hv.1, ?_⟩
        rintro ⟨hA, hB⟩
        rw [checkNonneg_iff.mpr hA, checkHalfOpenUnit_iff.mpr hB] at hv
        simp at hv
      · rw [if_neg hv] at h
        exact absurd h (by simp)
    · rintro ⟨hv, hcon⟩
      have hAB : (checkNonneg tc' && checkHalfOpenUnit pb) = false := by
        cases hA : checkNonneg tc' with
        | false => simp
        | true =>
          cases hB : checkHalfOpenUnit pb with
          | false => simp
          | true =>
            exact absurd ⟨checkNonneg_iff.mp hA, checkHalfOpenUnit_iff.mp hB⟩ hcon
      rw [if_pos (by rw [hv, hAB]; rfl)]
  · intro tc l v tc' lb hb
    rw [init_logits_eq2 hb]
    constructor
    · intro h
      by_cases hv : (v && !(checkNonneg tc')) = true
      · rw [Bool.and_eq_true, Bool.not_eq_true'] at hv
        refine ⟨hv.1, ?_⟩
        intro hA
        rw [checkNonneg_iff.mpr hA] at hv
        simp at hv
      · rw [if_neg hv] at h
        exact absurd h (by simp)
    · rintro ⟨hv, hcon⟩
      have hA : checkNonneg tc' = false := by
        cases hA : checkNonneg tc' with
        | false => rfl
        | true => exact absurd (checkNonneg_iff.mp hA) hcon
      rw [if_pos (by rw [hv, hA]; rfl)]
  · intro N nb value
    unfold NegativeBinomial.log_prob
    constructor
    · intro h
      by_cases hv : (nb._validate_args && !(NegativeBinomial._validate_sample N value)) = true
      · rw [Bool.and_eq_true, Bool.not_eq_true'] at hv
        refine ⟨hv.1, ?_⟩
        intro hA
        rw [validate_sample_iff.mpr hA] at hv
        simp at hv
      · rw [if_neg hv] at h
        exact absurd h (by simp)
    · rintro ⟨hv, hcon⟩
      have hA : NegativeBinomial._validate_sample N value = false := by
        cases hA : NegativeBinomial._validate_sample N value with
        | false => rfl
        | true => exact absurd (validate_sample_iff.mp hA) hcon
      rw [if_pos (by rw [hv, hA]; rfl)]
  · refine ⟨⟨⟨[], fun i => (-1 : α)⟩, ⟨[], fun i => (0 : α)⟩, true, [], false⟩, ?_⟩
    rw [init_probs_eq2 (by rfl)]
    rfl
  · have hb : broadcast_all (⟨[], fun _ => (-1 : α)⟩ : Tensor α)
        (⟨[], fun _ => (0 : α)⟩ : Tensor α) =
        some (⟨[], fun i => (-1 : α)⟩, ⟨[], fun i => (0 : α)⟩) := rfl
    rw [init_probs_eq2 hb]
    rw [if_pos ?_]
    rw [Bool.true_and, Bool.not_eq_true']
    have : checkNonneg (⟨[], fun i => (-1 : α)⟩ : Tensor α) = false := by
      unfold checkNonneg
      simp [indices]
    rw [Bool.and_eq_false_iff]
    exact Or.inl this

theorem validationError_iff_witness :
    NegativeBinomial.init (⟨[], fun _ => (-1 : ℚ)⟩ : Tensor ℚ)
      (some ⟨[], fun _ => (0 : ℚ)⟩) none true = Except.error DistError.validationError :=
  (validationError_iff (α := ℚ)).2.2.2.2

/-- C9: for every successfully constructed instance, `param_shape` equals
`batch_shape`: the shape of the canonical stored parameter is exactly the
shape recorded as `batch_shape` at construction. -/
theorem param_shape_eq_batch_shape [LinearOrderedField α] {tc : Tensor α}
    {po lo : Option (Tensor α)} {v : Bool} {nb : NegativeBinomial α}
    (h : NegativeBinomial.init tc po lo v = Except.ok nb) :
    NegativeBinomial.param_shape nb = nb.batch_shape :=
  (init_ok_wellFormed h).2

theorem param_shape_eq_batch_shape_witness :
    NegativeBinomial.param_shape
      (⟨⟨[], fun _ => (1 : ℚ)⟩, ⟨[], fun _ => (0 : ℚ)⟩, true, [], false⟩ :
        NegativeBinomial ℚ) = ([] : List ℕ) :=
  param_shape_eq_batch_shape
    (show NegativeBinomial.init (⟨[], fun _ => (1 : ℚ)⟩ : Tensor ℚ)
        (some ⟨[], fun _ => (0 : ℚ)⟩) none false =
      Except.ok ⟨⟨[], fun _ => (1 : ℚ)⟩, ⟨[], fun _ => (0 : ℚ)⟩, true, [], false⟩ from rfl)

/-- C4: construction fails with `configurationError` exactly when both of
`probs`/`logits` are given or neither is given; when exactly one is given,
no such error is raised. -/
theorem init_configurationError_iff [LinearOrderedField α] (tc : Tensor α)
    (po lo : Option (Tensor α)) (v : Bool) :
    NegativeBinomial.init tc po lo v = Except.error DistError.configurationError ↔
      po.isSome = lo.isSome := by
  cases po with
  | some p =>
    cases lo with
    | some l =>
      unfold NegativeBinomial.init
      rw [if_pos (by simp)]
      simp
    | none =>
      unfold NegativeBinomial.init
      rw [if_neg (by simp)]
      simp only [Option.isSome_some, Option.isSome_none]
      constructor
      · intro h
        have h2 : (match broadcast_all tc p with
          | none => Except.error DistError.broadcastError
          | some (tcb, pb) =>
            if (v && !(checkNonneg tcb && checkHalfOpenUnit pb)) = true then
              Except.error DistError.validationError
            else
              Except.ok (⟨tcb, pb, true, pb.shape, v⟩ : NegativeBinomial α)) =
            Except.error DistError.configurationError := h
        cases hb : broadcast_all tc p with
        | none => rw [hb] at h2; simp at h2
        | some pair =>
          obtain ⟨tc', pb⟩ := pair
          rw [hb] at h2
          have h3 : (if (v && !(checkNonneg tc' && checkHalfOpenUnit pb)) = true then
              Except.error DistError.validationError
            else
              Except.ok (⟨tc', pb, true, pb.shape, v⟩ : NegativeBinomial α)) =
              Except.error DistError.configurationError := h2
          by_cases hv : (v && !(checkNonneg tc' && checkHalfOpenUnit pb)) = true
          · rw [if_pos hv] at h3; simp at h3
          · rw [if_neg hv] at h3; simp at h3
      · intro h
        simp at h
  | none =>
    cases lo with
    | some l =>
      unfold NegativeBinomial.init
      rw [if_neg (by simp)]
      simp only [Option.isSome_some, Option.isSome_none]
      constructor
      · intro h
        have h2 : (match broadcast_all tc l with
          | none => Except.error DistError.broadcastError
          | some (tcb, lb) =>
            if (v && !(checkNonneg tcb)) = true then
              Except.error DistError.validationError
            else
              Except.ok (⟨tcb, lb, false, lb.shape, v⟩ : NegativeBinomial α)) =
            Except.error DistError.configurationError := h
        cases hb : broadcast_all tc l with
        | none => rw [hb] at h2; simp at h2
        | some pair =>
          obtain ⟨tc', lb⟩ := pair
          rw [hb] at h2
          have h3 : (if (v && !(checkNonneg tc')) = true then
              Except.error DistError.validationError
            else
              Except.ok (⟨tc', lb, false, lb.shape, v⟩ : NegativeBinomial α)) =
              Except.error DistError.configurationError := h2
          by_cases hv : (v && !(checkNonneg tc')) = true
          · rw [if_pos hv] at h3; simp at h3
          · rw [if_neg hv] at h3; simp at h3
      · intro h
        simp at h
    | none =>
      unfold NegativeBinomial.init
      rw [if_pos (by simp)]
      simp

theorem init_configurationError_iff_witness :
    NegativeBinomial.init (⟨[], fun _ => (1 : ℚ)⟩ : Tensor ℚ) none none false =
      Except.error DistError.configurationError :=
  (init_configurationError_iff (⟨[], fun _ => (1 : ℚ)⟩ : Tensor ℚ) none none false).mpr rfl

/-- C1: for every well-formed instance and every supported value
broadcastable against `batch_shape`, `log_prob value` succeeds and returns,
elementwise at the common broadcast shape of `total_count`, `logits` and
`value`, the difference `log_unnorm - log_norm` with
`log_unnorm = total_count * log_sigmoid(-logits) + value * log_sigmoid(logits)` and
`log_norm = -lgamma(total_count + value) + lgamma(1 + value) + lgamma(total_count)`. -/
theorem log_prob_formula [LinearOrderedField α] (N : Numerics α)
    (nb : NegativeBinomial α) (value : Tensor α) (c : List ℕ)
    (hwf : NegativeBinomial.wellFormed nb)
    (hbc : broadcastShape value.shape nb.batch_shape = some c)
    (hsupp : ∀ i, validIdx i value.shape → N.isNonnegInt (value.data i) = true) :
    ∃ t, NegativeBinomial.log_prob N nb value = Except.ok t ∧
      t.shape = c ∧
      ∀ i, validIdx i c →
        t.data i =
          (nb.total_count.data (bcastIndex nb.batch_shape i) *
              N.logsigmoid
                (-((NegativeBinomial.logits N nb).data (bcastIndex nb.batch_shape i))) +
            value.data (bcastIndex value.shape i) *
              N.logsigmoid ((NegativeBinomial.logits N nb).data (bcastIndex nb.batch_shape i))) -
          (-(N.lgamma (nb.total_count.data (bcastIndex nb.batch_shape i) +
              value.data (bcastIndex value.shape i))) +
            N.lgamma (1 + value.data (bcastIndex value.shape i)) +
            N.lgamma (nb.total_count.data (bcastIndex nb.batch_shape i))) := by
  have hbc' : broadcastShape nb.batch_shape value.shape = some c :=
    (broadcastShape_comm nb.batch_shape value.shape).trans hbc
  have habs1 : broadcastShape nb.batch_shape c = some c := broadcastShape_absorb hbc
  have habs2 : broadcastShape value.shape c = some c := broadcastShape_absorb hbc'
  have habs1' : broadcastShape c nb.batch_shape = some c :=
    (broadcastShape_comm c nb.batch_shape).trans habs1
  have habs2' : broadcastShape c value.shape = some c :=
    (broadcastShape_comm c value.shape).trans habs2
  have hLsh : (NegativeBinomial.logits N nb).shape = nb.batch_shape := logits_shape hwf.2
  have hval : (nb._validate_args && !(NegativeBinomial._validate_sample N value)) = false := by
    rw [validate_sample_iff.mpr hsupp]
    simp
  have hAsh : (ewBin (· * ·) nb.total_count
      (ewMap N.logsigmoid (ewMap (fun x => -x) (NegativeBinomial.logits N nb)))).shape =
      nb.batch_shape := by
    apply ewBin_shape
    rw [ewMap_shape, ewMap_shape, hLsh, hwf.1]
    exact broadcastShape_self _
  have hBsh : (ewBin (· * ·) value
      (ewMap N.logsigmoid (NegativeBinomial.logits N nb))).shape = c := by
    apply ewBin_shape
    rw [ewMap_shape, hLsh]
    exact hbc
  have hlupsh : (ewBin (· + ·)
      (ewBin (· * ·) nb.total_count
        (ewMap N.logsigmoid (ewMap (fun x => -x) (NegativeBinomial.logits N nb))))
      (ewBin (· * ·) value (ewMap N.logsigmoid (NegativeBinomial.logits N nb)))).shape = c := by
    apply ewBin_shape
    rw [hAsh, hBsh]
    exact habs1
  have hTVsh : (ewBin (· + ·) nb.total_count value).shape = c := by
    apply ewBin_shape
    rw [hwf.1]
    exact hbc'
  have hABsh : (ewBin (· + ·)
      (ewMap (fun x => -x) (ewMap N.lgamma (ewBin (· + ·) nb.total_count value)))
      (ewMap N.lgamma (ewMap (fun x => 1 + x) value))).shape = c := by
    apply ewBin_shape
    rw [ewMap_shape, ewMap_shape, hTVsh, ewMap_shape, ewMap_shape]
    exact habs2'
  have hlnormsh : (ewBin (· + ·)
      (ewBin (· + ·)
        (ewMap (fun x => -x) (ewMap N.lgamma (ewBin (· + ·) nb.total_count value)))
        (ewMap N.lgamma (ewMap (fun x => 1 + x) value)))
      (ewMap N.lgamma nb.total_count)).shape = c := by
    apply ewBin_shape
    rw [hABsh, ewMap_shape, hwf.1]
    exact habs1'
  unfold NegativeBinomial.log_prob
  rw [if_neg (by rw [hval]; simp)]
  refine ⟨_, rfl, ?_, ?_⟩
  · apply ewBin_shape
    rw [hlupsh, hlnormsh]
    exact broadcastShape_self c
  · intro i hi
    have hci : bcastIndex c i = i := bcastIndex_self hi
    have hj : validIdx (bcastIndex nb.batch_shape i) nb.batch_shape :=
      validIdx_bcastIndex hbc' hi
    have hjj : bcastIndex nb.batch_shape (bcastIndex nb.batch_shape i) =
        bcastIndex nb.batch_shape i := bcastIndex_self hj
    simp only [ewBin_data, ewMap_data, ewMap_shape, hAsh, hBsh, hlupsh, hTVsh, hABsh,
      hlnormsh, hLsh, hwf.1, hci, hjj]

theorem mean_data_eq [Field α] (N : Numerics α) {nb : NegativeBinomial α}
    (hwf : NegativeBinomial.wellFormed nb) {i : List ℕ} (hi : validIdx i nb.batch_shape) :
    (NegativeBinomial.mean N nb).data i =
      nb.total_count.data i * N.exp ((NegativeBinomial.logits N nb).data i) := by
  have hLsh : (NegativeBinomial.logits N nb).shape = nb.batch_shape := logits_shape hwf.2
  have hci : bcastIndex nb.batch_shape i = i := bcastIndex_self hi
  simp only [NegativeBinomial.mean, ewBin_data, ewMap_data, ewMap_shape, hLsh, hwf.1, hci]

theorem variance_data_eq [Field α] (N : Numerics α) {nb : NegativeBinomial α}
    (hwf : NegativeBinomial.wellFormed nb) {i : List ℕ} (hi : validIdx i nb.batch_shape) :
    (NegativeBinomial.variance N nb).data i =
      (NegativeBinomial.mean N nb).data i /
        N.sigmoid (-((NegativeBinomial.logits N nb).data i)) := by
  have hLsh : (NegativeBinomial.logits N nb).shape = nb.batch_shape := logits_shape hwf.2
  have hci : bcastIndex nb.batch_shape i = i := bcastIndex_self hi
  have hmsh : (NegativeBinomial.mean N nb).shape = nb.batch_shape := by
    unfold NegativeBinomial.mean
    apply ewBin_shape
    rw [ewMap_shape, hLsh, hwf.1]
    exact broadcastShape_self _
  simp only [NegativeBinomial.variance, ewBin_data, ewMap_data, ewMap_shape, hLsh, hmsh, hci]

theorem probs_data_fromProbs [Field α] (N : Numerics α) {nb : NegativeBinomial α}
    (hfp : nb.fromProbs = true) (i : List ℕ) :
    (NegativeBinomial.probs N nb).data i = nb._param.data i := by
  unfold NegativeBinomial.probs
  rw [hfp, if_pos rfl]

theorem probs_data_fromLogits [Field α] (N : Numerics α) {nb : NegativeBinomial α}
    (hfp : nb.fromProbs = false) (i : List ℕ) :
    (NegativeBinomial.probs N nb).data i = N.sigmoid (nb._param.data i) := by
  unfold NegativeBinomial.probs logits_to_probs
  rw [hfp]
  simp
  rfl

theorem logits_data_fromProbs [Field α] (N : Numerics α) {nb : NegativeBinomial α}
    (hfp : nb.fromProbs = true) (i : List ℕ) :
    (NegativeBinomial.logits N nb).data i =
      N.log (nb._param.data i) - N.log (1 - nb._param.data i) := by
  unfold NegativeBinomial.logits probs_to_logits
  rw [hfp, if_pos rfl]
  rfl

theorem logits_data_fromLogits [Field α] (N : Numerics α) {nb : NegativeBinomial α}
    (hfp : nb.fromProbs = false) (i : List ℕ) :
    (NegativeBinomial.logits N nb).data i = nb._param.data i := by
  unfold NegativeBinomial.logits
  rw [hfp]
  simp

theorem exp_logit {q : ℝ} (h0 : 0 < q) (h1 : q < 1) :
    Real.exp (Real.log q - Real.log (1 - q)) = q / (1 - q) := by
  rw [Real.exp_sub, Real.exp_log h0, Real.exp_log (by linarith)]

theorem one_div_one_add_exp_logit {q : ℝ} (h0 : 0 < q) (h1 : q < 1) :
    1 / (1 + Real.exp (Real.log q - Real.log (1 - q))) = 1 - q := by
  rw [exp_logit h0 h1]
  have hne : (1:ℝ) - q ≠ 0 := ne_of_gt (by linarith)
  have hq : 1 + q / (1 - q) = 1 / (1 - q) := by
    field_simp
  rw [hq, one_div_one_div]

theorem one_div_one_add_exp_neg_logit {q : ℝ} (h0 : 0 < q) (h1 : q < 1) :
    1 / (1 + Real.exp (-(Real.log q - Real.log (1 - q)))) = q := by
  rw [neg_sub, Real.exp_sub, Real.exp_log (by linarith : (0:ℝ) < 1 - q), Real.exp_log h0]
  have hne : q ≠ 0 := ne_of_gt h0
  have hq : 1 + (1 - q) / q = 1 / q := by
    field_simp
  rw [hq, one_div_one_div]

theorem one_div_one_add_exp (u : ℝ) :
    1 / (1 + Real.exp u) = 1 - 1 / (1 + Real.exp (-u)) := by
  have h1 : (0:ℝ) < 1 + Real.exp (-u) := by positivity
  have h2 : (0:ℝ) < 1 + Real.exp u := by positivity
  have hprod : Real.exp u * Real.exp (-u) = 1 := by
    rw [← Real.exp_add]
    simp
  field_simp
  ring_nf
  nlinarith [hprod]

theorem exp_eq_sigmoid_ratio (u : ℝ) :
    Real.exp u = (1 / (1 + Real.exp (-u))) / (1 - 1 / (1 + Real.exp (-u))) := by
  rw [← one_div_one_add_exp]
  have h1 : (0:ℝ) < 1 + Real.exp (-u) := by positivity
  have h2 : (0:ℝ) < 1 + Real.exp u := by positivity
  have hprod : Real.exp u * Real.exp (-u) = 1 := by
    rw [← Real.exp_add]
    simp
  rw [eq_div_iff (by positivity)]
  field_simp
  nlinarith [hprod]

theorem log_prob_formula_witness :
    (broadcastShape ([] : List ℕ) [2] = some [2]) ∧
    ∃ t, NegativeBinomial.log_prob (⟨id, id, id, id, id, fun _ => true⟩ : Numerics ℚ)
        (⟨⟨[2], fun _ => 3⟩, ⟨[2], fun _ => 1⟩, false, [2], false⟩ : NegativeBinomial ℚ)
        ⟨[], fun _ => 4⟩ = Except.ok t ∧ t.shape = [2] :=
  have happ := log_prob_formula (⟨id, id, id, id, id, fun _ => true⟩ : Numerics ℚ)
    (⟨⟨[2], fun _ => 3⟩, ⟨[2], fun _ => 1⟩, false, [2], false⟩ : NegativeBinomial ℚ)
    ⟨[], fun _ => 4⟩ [2] ⟨rfl, rfl⟩ (by decide) (fun i _ => rfl)
  ⟨by decide, happ.elim fun t ht => ⟨t, ht.1, ht.2.1⟩⟩

/-- C3: for every well-formed instance, `mean` equals
`total_count * exp(logits)` elementwise and `variance` equals
`mean / sigmoid(-logits)` elementwise, and at parameters with
`probs ∈ (0,1)` these coincide with the standard Negative Binomial formulas
`total_count * probs / (1 - probs)` and `mean / (1 - probs)`. -/
theorem mean_variance_formulas (N : Numerics ℝ)
    (hexp : N.exp = Real.exp)
    (hsig : ∀ x, N.sigmoid x = 1 / (1 + Real.exp (-x)))
    (hlog : N.log = Real.log)
    (nb : NegativeBinomial ℝ) (hwf : NegativeBinomial.wellFormed nb)
    (i : List ℕ) (hi : validIdx i nb.batch_shape) :
    (NegativeBinomial.mean N nb).data i =
      nb.total_count.data i * Real.exp ((NegativeBinomial.logits N nb).data i) ∧
    (NegativeBinomial.variance N nb).data i =
      (NegativeBinomial.mean N nb).data i /
        N.sigmoid (-((NegativeBinomial.logits N nb).data i)) ∧
    (0 < (NegativeBinomial.probs N nb).data i →
      (NegativeBinomial.probs N nb).data i < 1 →
      (NegativeBinomial.mean N nb).data i =
        nb.total_count.data i * (NegativeBinomial.probs N nb).data i /
          (1 - (NegativeBinomial.probs N nb).data i) ∧
      (NegativeBinomial.variance N nb).data i =
        (NegativeBinomial.mean N nb).data i / (1 - (NegativeBinomial.probs N nb).data i)) := by
  have hmean := mean_data_eq N hwf hi
  have hvar := variance_data_eq N hwf hi
  rw [hexp] at hmean
  refine ⟨hmean, hvar, fun hp0 hp1 => ?_⟩
  have key : Real.exp ((NegativeBinomial.logits N nb).data i) =
      (NegativeBinomial.probs N nb).data i / (1 - (NegativeBinomial.probs N nb).data i) ∧
      N.sigmoid (-((NegativeBinomial.logits N nb).data i)) =
        1 - (NegativeBinomial.probs N nb).data i := by
    cases hfp : nb.fromProbs with
    | true =>
      have hpe := probs_data_fromProbs N hfp i
      have hle := logits_data_fromProbs N hfp i
      rw [hlog] at hle
      rw [hpe] at hp0 hp1 ⊢
      rw [hle]
      constructor
      · exact exp_logit hp0 hp1
      · rw [hsig, neg_neg]
        exact one_div_one_add_exp_logit hp0 hp1
    | false =>
      have hpe := probs_data_fromLogits N hfp i
      have hle := logits_data_fromLogits N hfp i
      rw [hsig] at hpe
      rw [hle, hpe]
      constructor
      · exact exp_eq_sigmoid_ratio _
      · rw [hsig, neg_neg]
        exact one_div_one_add_exp _
  refine ⟨?_, ?_⟩
  · rw [hmean, key.1, mul_div_assoc]
  · rw [hvar, key.2]

theorem mean_variance_formulas_witness :
    (NegativeBinomial.mean
      (⟨Real.exp, Real.log, fun x => 1 / (1 + Real.exp (-x)), id, id, fun _ => true⟩ :
        Numerics ℝ)
      (⟨⟨[], fun _ => 2⟩, ⟨[], fun _ => 0⟩, false, [], false⟩ : NegativeBinomial ℝ)).data [] =
      (⟨⟨[], fun _ => 2⟩, ⟨[], fun _ => 0⟩, false, [], false⟩ :
        NegativeBinomial ℝ).total_count.data [] *
      Real.exp ((NegativeBinomial.logits
        (⟨Real.exp, Real.log, fun x => 1 / (1 + Real.exp (-x)), id, id, fun _ => true⟩ :
          Numerics ℝ)
        (⟨⟨[], fun _ => 2⟩, ⟨[], fun _ => 0⟩, false, [], false⟩ :
          NegativeBinomial ℝ)).data []) :=
  (mean_variance_formulas
    (⟨Real.exp, Real.log, fun x => 1 / (1 + Real.exp (-x)), id, id, fun _ => true⟩ :
      Numerics ℝ)
    rfl (fun x => rfl) rfl
    (⟨⟨[], fun _ => 2⟩, ⟨[], fun _ => 0⟩, false, [], false⟩ : NegativeBinomial ℝ)
    ⟨rfl, rfl⟩ [] (by simp [validIdx])).1

/-- C10: for every well-formed instance whose `total_count` satisfies the
declared non-negativity constraint, `variance ≥ mean` holds elementwise
(overdispersion), since `variance = mean / sigmoid(-logits)`, `mean ≥ 0`
and `sigmoid(-logits) = 1 - probs` lies in `(0, 1]`. -/
theorem variance_ge_mean (N : Numerics ℝ)
    (hexp : N.exp = Real.exp)
    (hsig : ∀ x, N.sigmoid x = 1 / (1 + Real.exp (-x)))
    (nb : NegativeBinomial ℝ) (hwf : NegativeBinomial.wellFormed nb)
    (i : List ℕ) (hi : validIdx i nb.batch_shape)
    (htc : 0 ≤ nb.total_count.data i) :
    (NegativeBinomial.mean N nb).data i ≤ (NegativeBinomial.variance N nb).data i := by
  have hmean := mean_data_eq N hwf hi
  have hvar := variance_data_eq N hwf hi
  rw [hexp] at hmean
  rw [hvar, hsig, neg_neg]
  have hm0 : 0 ≤ (NegativeBinomial.mean N nb).data i := by
    rw [hmean]
    exact mul_nonneg htc (Real.exp_pos _).le
  have hs0 : (0:ℝ) < 1 / (1 + Real.exp ((NegativeBinomial.logits N nb).data i)) := by
    positivity
  have hs1 : 1 / (1 + Real.exp ((NegativeBinomial.logits N nb).data i)) ≤ 1 := by
    rw [div_le_one (by positivity)]
    have := Real.exp_pos ((NegativeBinomial.logits N nb).data i)
    linarith
  rw [le_div_iff hs0]
  exact mul_le_of_le_one_right hm0 hs1

theorem variance_ge_mean_witness :
    (NegativeBinomial.mean
      (⟨Real.exp, Real.log, fun x => 1 / (1 + Real.exp (-x)), id, id, fun _ => true⟩ :
        Numerics ℝ)
      (⟨⟨[], fun _ => 2⟩, ⟨[], fun _ => 0⟩, false, [], false⟩ : NegativeBinomial ℝ)).data [] ≤
    (NegativeBinomial.variance
      (⟨Real.exp, Real.log, fun x => 1 / (1 + Real.exp (-x)), id, id, fun _ => true⟩ :
        Numerics ℝ)
      (⟨⟨[], fun _ => 2⟩, ⟨[], fun _ => 0⟩, false, [], false⟩ : NegativeBinomial ℝ)).data [] :=
  variance_ge_mean
    (⟨Real.exp, Real.log, fun x => 1 / (1 + Real.exp (-x)), id, id, fun _ => true⟩ :
      Numerics ℝ)
    rfl (fun x => rfl)
    (⟨⟨[], fun _ => 2⟩, ⟨[], fun _ => 0⟩, false, [], false⟩ : NegativeBinomial ℝ)
    ⟨rfl, rfl⟩ [] (by simp [validIdx]) zero_le_two

/-- C7: constructing an instance from valid `probs` in `(0,1)` and reading
its `logits`, then constructing a fresh instance from that `logits` tensor
and reading its `probs`, recovers the original `probs` elementwise
(round-trip of the `probs_to_logits` / `logits_to_probs` transform pair,
exact in the real-number semantics of the transforms). -/
theorem probs_logits_roundtrip (N : Numerics ℝ)
    (hsig : ∀ x, N.sigmoid x = 1 / (1 + Real.exp (-x)))
    (hlog : N.log = Real.log)
    (tc p : Tensor ℝ) (v1 v2 : Bool) (nb1 nb2 : NegativeBinomial ℝ)
    (h1 : NegativeBinomial.init tc (some p) none v1 = Except.ok nb1)
    (h2 : NegativeBinomial.init tc none (some (NegativeBinomial.logits N nb1)) v2 =
      Except.ok nb2)
    (i : List ℕ) (hi : validIdx i nb1.batch_shape)
    (hp0 : 0 < nb1._param.data i) (hp1 : nb1._param.data i < 1) :
    (NegativeBinomial.probs N nb2).data i = nb1._param.data i ∧
    nb1._param.data i = p.data (bcastIndex p.shape i) := by
  obtain ⟨hb1, hfp1, hbs1, _⟩ := init_ok_probs h1
  obtain ⟨hb2, hfp2, _, _⟩ := init_ok_logits h2
  obtain ⟨_, _, _, hd1⟩ := broadcast_all_eq hb1
  obtain ⟨_, _, _, hd2⟩ := broadcast_all_eq hb2
  refine ⟨?_, hd1 i⟩
  rw [probs_data_fromLogits N hfp2 i, hd2 i]
  have hLsh : (NegativeBinomial.logits N nb1).shape = nb1.batch_shape :=
    logits_shape hbs1.symm
  have hii : bcastIndex (NegativeBinomial.logits N nb1).shape i = i := by
    rw [hLsh]
    exact bcastIndex_self hi
  rw [hii, logits_data_fromProbs N hfp1 i, hlog, hsig]
  exact one_div_one_add_exp_neg_logit hp0 hp1

theorem probs_logits_roundtrip_witness :
    (NegativeBinomial.probs
      (⟨Real.exp, Real.log, fun x => 1 / (1 + Real.exp (-x)), id, id, fun _ => true⟩ :
        Numerics ℝ)
      (⟨⟨[], fun _ => (1:ℝ)⟩, ⟨[], fun _ => Real.log (1/2) - Real.log (1 - 1/2)⟩,
        false, [], false⟩ : NegativeBinomial ℝ)).data [] = (1/2 : ℝ) :=
  (probs_logits_roundtrip
    (⟨Real.exp, Real.log, fun x => 1 / (1 + Real.exp (-x)), id, id, fun _ => true⟩ :
      Numerics ℝ)
    (fun x => rfl) rfl
    (⟨[], fun _ => (1:ℝ)⟩ : Tensor ℝ) (⟨[], fun _ => (1/2 : ℝ)⟩ : Tensor ℝ)
    false false
    (⟨⟨[], fun _ => (1:ℝ)⟩, ⟨[], fun _ => (1/2 : ℝ)⟩, true, [], false⟩ : NegativeBinomial ℝ)
    (⟨⟨[], fun _ => (1:ℝ)⟩, ⟨[], fun _ => Real.log (1/2) - Real.log (1 - 1/2)⟩,
      false, [], false⟩ : NegativeBinomial ℝ)
    rfl rfl [] (by simp [validIdx]) one_half_pos one_half_lt_one).1

end Torch
